import Mathlib

/-!
Verification of the `balancer` package of mae-pax/consul-loadbalancer.

Shallow embedding conventions:
* Go `float64` arithmetic is modelled with exact rationals (`ℚ`).
* Go `map[string]float64` is modelled as an association list (`SMap`)
  whose lookup returns the first (most recent) binding; insertion conses
  a fresh binding in front, so lookup-after-insert behaves like a Go map.
* Logging calls and metric-counter updates are elided; they do not affect
  any data the claims talk about (except the nil-logger fault, which is
  modelled explicitly in `updateAll`).
* A Go nil-pointer dereference (nil `localZone`, nil `logger`) is
  modelled by an `Option`-valued function returning `none`.
* Randomness (the probabilistic cache eviction draw) is passed in as a
  `Bool` oracle argument (`expire`), and the outcome of each registry /
  KV fetch (including JSON decoding) is passed in as an
  `Except String _` oracle argument.
-/

/-- Association-list model of a Go `map[string]float64`. -/
abbrev SMap := List (String × ℚ)

/-- Go map assignment `m[k] = v`: the new binding shadows any older one. -/
def mapSet (m : SMap) (k : String) (v : ℚ) : SMap := (k, v) :: m

/-- Constants from the source (lines 14-21). -/
def BALANCEFACTOR_MAX_LOCAL : ℚ := 3000

def BALANCEFACTOR_MIN_LOCAL : ℚ := 200

def BALANCEFACTOR_MAX_CROSS : ℚ := 1000

def BALANCEFACTOR_MIN_CROSS : ℚ := 1

def BALANCEFACTOR_START_CROSS : ℚ := 50

def BALANCEFACTOR_CROSS_RATE : ℚ := 1/10

/-- `ServiceNode` (source lines 114-123). -/
structure ServiceNode where
  PublicIP : String
  InstanceID : String
  Host : String
  Port : Int
  Zone : String
  BalanceFactor : ℚ
  CurrentFactor : ℚ
  WorkLoad : ℚ
deriving DecidableEq

/-- Zero value of a `ServiceNode` struct (used as the `getD` default). -/
def dfltNode : ServiceNode :=
  { PublicIP := "", InstanceID := "", Host := "", Port := 0, Zone := ""
    BalanceFactor := 0, CurrentFactor := 0, WorkLoad := 0 }

/-- `ServiceZone` (source lines 125-129). -/
structure ServiceZone where
  Nodes : List ServiceNode
  Zone : String
  WorkLoad : ℚ
deriving DecidableEq

/-- Zero value of a `ServiceZone`. -/
def dfltZone : ServiceZone := { Nodes := [], Zone := "", WorkLoad := 0 }

/-- `OnlineLab` hyperparameters (source lines 98-105). -/
structure OnlineLab where
  CrossZone : Bool
  CrossZoneRate : ℚ
  FactorCacheExpire : Int
  FactorStartRate : ℚ
  LearningRate : ℚ
  RateThreshold : ℚ
deriving DecidableEq

/-- `CandidatePool` (source lines 107-112). -/
structure CandidatePool where
  Nodes : List ServiceNode
  Factors : List ℚ
  Weights : List ℚ
  FactorSum : ℚ
deriving DecidableEq

/-- The freshly allocated pool `new(CandidatePool)` (source line 374). -/
def emptyPool : CandidatePool :=
  { Nodes := [], Factors := [], Weights := [], FactorSum := 0 }

/-- Model of `math.Abs` on exact rationals. -/
def mathAbs (x : ℚ) : ℚ := if x < 0 then -x else x

/-- `nodeBalanced` (source lines 503-505):
`math.Abs(node.WorkLoad-zone.WorkLoad)/100.0 < r.onlineLab.RateThreshold`. -/
def nodeBalanced (ol : OnlineLab) (node : ServiceNode) (zone : ServiceZone) : Bool :=
  decide (mathAbs (node.WorkLoad - zone.WorkLoad) / 100 < ol.RateThreshold)

/-- `zoneBalanced` (source lines 507-509). -/
def zoneBalanced (ol : OnlineLab) (localZone crossZone' : ServiceZone) : Bool :=
  decide (mathAbs (localZone.WorkLoad - crossZone'.WorkLoad) / 100 < ol.RateThreshold * 2)

/-- Clamp applied to local-zone factors (source lines 410-416). -/
def localClamp (bf : ℚ) : ℚ :=
  if bf > BALANCEFACTOR_MAX_LOCAL then BALANCEFACTOR_MAX_LOCAL
  else if bf < BALANCEFACTOR_MIN_LOCAL then BALANCEFACTOR_MIN_LOCAL
  else bf

/-- Clamp applied to cross-zone factors (source lines 469-475). -/
def crossClamp (bf : ℚ) : ℚ :=
  if bf > BALANCEFACTOR_MAX_CROSS then BALANCEFACTOR_MAX_CROSS
  else if bf < BALANCEFACTOR_MIN_CROSS then BALANCEFACTOR_MIN_CROSS
  else bf

/-- Mutable state threaded through `updateCandidatePool`: the pool being
built, the balance-factor cache (read and written node by node), and the
`localAvgFactor` variable. -/
structure BuildState where
  pool : CandidatePool
  cache : SMap
  localAvg : ℚ
deriving DecidableEq

/-- Append one node with its computed factor to the pool under
construction and record the factor in the cache (the common tail of both
loop bodies, source lines 385-386, 418-422 resp. 431-432, 477-481). -/
def appendNode (st : BuildState) (node : ServiceNode) (bf : ℚ) : BuildState :=
  { st with
    pool :=
      { Nodes := st.pool.Nodes ++ [{ node with CurrentFactor := bf }]
        Weights := st.pool.Weights ++ [0]
        Factors := st.pool.Factors ++ [bf]
        FactorSum := st.pool.FactorSum + bf }
    cache := mapSet st.cache node.InstanceID bf }

/-- Body of the local-zone node loop (source lines 384-423). -/
def processLocalNode (ol : OnlineLab) (zcu : Bool) (sz : ServiceZone)
    (factorCached : Bool) (st : BuildState) (node : ServiceNode) : BuildState :=
  let bf1 :=
    if factorCached then
      match List.lookup node.InstanceID st.cache with
      | some bf => bf
      | none =>
        if 0 < st.localAvg then st.localAvg
        else node.BalanceFactor * ol.FactorStartRate
    else node.BalanceFactor
  let bf2 :=
    if (!nodeBalanced ol node sz) && zcu then
      if node.WorkLoad > sz.WorkLoad then bf1 - bf1 * ol.LearningRate
      else bf1 + bf1 * ol.LearningRate
    else bf1
  appendNode st node (localClamp bf2)

/-- The cross-zone spill gate (the condition shared by source lines 439
and 448). -/
def crossSpill (ol : OnlineLab) (lz sz : ServiceZone) (th : ℚ) : Bool :=
  (!zoneBalanced ol lz sz) && decide (lz.WorkLoad > th) &&
    decide (lz.WorkLoad > sz.WorkLoad)

/-- Cross-zone factor computation up to and including the zone-level
nudge (source lines 433-458), i.e. everything before the node-level
nudge of lines 459-467. -/
def crossPreNudge (ol : OnlineLab) (lz sz : ServiceZone) (th : ℚ) (zcu : Bool)
    (cache : SMap) (node : ServiceNode) : ℚ :=
  let bf1 :=
    match List.lookup node.InstanceID cache with
    | some bf => bf
    | none => node.BalanceFactor
  let bf2 :=
    if crossSpill ol lz sz th then bf1 * BALANCEFACTOR_CROSS_RATE
    else BALANCEFACTOR_MIN_CROSS
  if zcu then
    if crossSpill ol lz sz th then
      let bf3 := if bf2 < BALANCEFACTOR_START_CROSS then BALANCEFACTOR_START_CROSS else bf2
      bf3 + bf3 * ol.LearningRate
    else bf2 - bf2 * ol.LearningRate
  else bf2

/-- The node-level nudge of the cross-zone loop (source lines 459-467);
it only runs inside the `r.zoneCPUUpdated` block. -/
def crossNodeNudge (ol : OnlineLab) (sz : ServiceZone) (zcu : Bool)
    (node : ServiceNode) (bf : ℚ) : ℚ :=
  if zcu && (!nodeBalanced ol node sz) then
    if node.WorkLoad > sz.WorkLoad then bf + bf * ol.LearningRate
    else bf - bf * ol.LearningRate
  else bf

/-- Body of the cross-zone node loop (source lines 430-482). -/
def processCrossNode (ol : OnlineLab) (zcu : Bool) (lz sz : ServiceZone)
    (th : ℚ) (st : BuildState) (node : ServiceNode) : BuildState :=
  appendNode st node
    (crossClamp (crossNodeNudge ol sz zcu node (crossPreNudge ol lz sz th zcu st.cache node)))

/-- One iteration of the zone loop of `updateCandidatePool` (source
lines 381-484).  Dereferencing the possibly nil `r.localZone` in the
comparison `r.localZone.Zone == serviceZone.Zone` is modelled by the
`Option` bind: with `lzOpt = none` the iteration faults. -/
def buildZoneStep (ol : OnlineLab) (zcu : Bool) (th : ℚ) (factorCached : Bool)
    (lzOpt : Option ServiceZone) (st : BuildState) (sz : ServiceZone) :
    Option BuildState :=
  match lzOpt with
  | none => none
  | some lz =>
    if lz.Zone = sz.Zone then
      let st1 := sz.Nodes.foldl (processLocalNode ol zcu sz factorCached) st
      some (if 0 < st1.pool.Factors.length then
              { st1 with localAvg := st1.pool.FactorSum / (st1.pool.Factors.length : ℚ) }
            else st1)
    else if ol.CrossZone then
      some (sz.Nodes.foldl (processCrossNode ol zcu lz sz th) st)
    else
      some st

/-- `updateCandidatePool` (source lines 370-501).  Returns the pool that
gets published together with the final balance-factor cache, or `none`
when the Go code would fault on a nil `r.localZone`. -/
def updateCandidatePool (lzOpt : Option ServiceZone) (serviceZones : List ServiceZone)
    (cache : SMap) (th : ℚ) (ol : OnlineLab) (zcu : Bool) :
    Option (CandidatePool × SMap) :=
  let factorCached := decide (0 < cache.length)
  (serviceZones.foldlM (buildZoneStep ol zcu th factorCached lzOpt)
      { pool := emptyPool, cache := cache, localAvg := 0 }).map
    (fun st => (st.pool, st.cache))

/-- The selection loop of `SelectNode` (source lines 521-527): running
pair `(idx, max)` starting from the zero values `(0, 0)`, improved only
on strict `max < weight`.  `j` is the current loop counter. -/
def selAux : List ℚ → ℕ → ℕ × ℚ → ℕ × ℚ
  | [], _, p => p
  | x :: xs, j, p => selAux xs (j + 1) (if p.2 < x then (j, x) else p)

/-- Index chosen by the Go loop, applied to the already-updated weights. -/
def wsel (u : List ℚ) : ℕ := (selAux u 0 (0, 0)).1

/-- The in-place update `Weights[i] += Factors[i]` for `i < len(Factors)`
(source line 522); lengths are always equal for published pools. -/
def updateW (w f : List ℚ) : List ℚ := List.zipWith (· + ·) w f

/-- `SelectNode` (source lines 511-540): returns `none` for an empty
pool, otherwise the chosen node together with the mutated pool.  Metric
updates (lines 532-538) are elided. -/
def SelectNode (p : CandidatePool) : Option (ServiceNode × CandidatePool) :=
  if p.Nodes = [] then none
  else
    let u := updateW p.Weights p.Factors
    let idx := wsel u
    some (p.Nodes.getD idx dfltNode,
      { p with Weights := u.set idx (u.getD idx 0 - p.FactorSum) })

/-- Index that the next `SelectNode` call on `p` will pick. -/
def selIdx (p : CandidatePool) : ℕ := wsel (updateW p.Weights p.Factors)

/-- Pool state after one `SelectNode` call (unchanged when empty). -/
def poolSelStep (p : CandidatePool) : CandidatePool :=
  match SelectNode p with
  | none => p
  | some x => x.2

/-- Indices chosen by `T` successive `SelectNode` calls. -/
def poolSelTrace (p : CandidatePool) : ℕ → List ℕ
  | 0 => []
  | T + 1 => selIdx p :: poolSelTrace (poolSelStep p) T

/-- Weight-vector transition of one `SelectNode` call, for factors `f`
with stored factor sum `S`. -/
def wstep (f : List ℚ) (S : ℚ) (w : List ℚ) : List ℚ :=
  let u := updateW w f
  u.set (wsel u) (u.getD (wsel u) 0 - S)

/-- Indices chosen by `T` successive `SelectNode` calls, expressed on
the weight vector alone. -/
def wtrace (f : List ℚ) (S : ℚ) (w : List ℚ) : ℕ → List ℕ
  | 0 => []
  | T + 1 => wsel (updateW w f) :: wtrace f S (wstep f S w) T

/-- Weight-vector invariant maintained by the smooth-WRR selection. -/
def WInv (S : ℚ) (n : ℕ) (w : List ℚ) : Prop :=
  w.length = n ∧ w.sum = 0 ∧ ∀ i < n, -S < w.getD i 0

/-- One healthy registry entry: the metadata fields read at source lines
311-317.  `MetaBalanceFactor` carries the already-parsed value of the
`balanceFactor` metadata string (0 when unparseable, since the
`strconv.ParseFloat` error is discarded). -/
structure ServiceEntry where
  MetaZone : String
  MetaBalanceFactor : ℚ
  MetaInstanceID : String
  MetaPublicIP : String
  Address : String
  Port : Int
deriving DecidableEq

/-- First loop of `updateServiceZone` (source lines 309-319): build a
`ServiceNode` from an entry.  `WorkLoad` and `CurrentFactor` keep the Go
struct zero value 0. -/
def entryToNode (e : ServiceEntry) : ServiceNode :=
  { PublicIP := e.MetaPublicIP, InstanceID := e.MetaInstanceID, Host := e.Address
    Port := e.Port, Zone := e.MetaZone, BalanceFactor := e.MetaBalanceFactor
    CurrentFactor := 0, WorkLoad := 0 }

/-- Body of the second loop of `updateServiceZone` (source lines
322-350): workload assignment, instance-factor map write-back and
grouping by zone.  The accumulator is `(instanceFactorMap, zones)`;
zones are kept in first-appearance order. -/
def serviceZoneFold (zcm : SMap) (acc : SMap × List ServiceZone) (v : ServiceNode) :
    SMap × List ServiceZone :=
  let step :=
    match List.lookup v.InstanceID acc.1 with
    | some workload => (v, workload)
    | none => ({ v with WorkLoad := (100 : ℚ) }, (0 : ℚ))
  let v1 := step.1
  let ifm1 := mapSet acc.1 v.InstanceID step.2
  let zones1 :=
    if acc.2.any (fun z => z.Zone == v1.Zone) then
      acc.2.map (fun z => if z.Zone == v1.Zone then { z with Nodes := z.Nodes ++ [v1] } else z)
    else
      acc.2 ++ [{ Zone := v1.Zone, WorkLoad := (List.lookup v1.Zone zcm).getD 100
                  Nodes := [v1] }]
  (ifm1, zones1)

/-- `updateServiceZone` (source lines 299-361), minus the registry call
itself: takes the decoded entries and produces the new `serviceZones`,
`localZone` (kept from the previous refresh when no zone matches
`r.zone`, source lines 352-358) and the written-back instance factor
map. -/
def updateServiceZone (rzone : String) (zcm ifm : SMap) (entries : List ServiceEntry)
    (prevLocal : Option ServiceZone) : List ServiceZone × Option ServiceZone × SMap :=
  let ns := entries.map entryToNode
  let acc := ns.foldl (serviceZoneFold zcm) (ifm, [])
  let lz :=
    match acc.2.find? (fun z => z.Zone == rzone) with
    | some z => some z
    | none => prevLocal
  (acc.2, lz, acc.1)

/-- One decoded element of the instance-factor KV payload (source lines
145-150). -/
structure InstanceMetaInfo where
  PublicIP : String
  InstanceID : String
  CPUUtilization : ℚ
  Zone : String
deriving DecidableEq

/-- `updateZoneCPUMap` flattening (source lines 254-259). -/
def flattenZoneCPU (date : List (List (String × ℚ))) : SMap :=
  date.foldl (fun m kvs => kvs.foldl (fun m' kv => mapSet m' kv.1 kv.2) m) []

/-- `updateInstanceFactorMap` map construction (source lines 290-293). -/
def buildInstanceFactorMap (data : List InstanceMetaInfo) : SMap :=
  data.foldl (fun m v => mapSet m v.InstanceID v.CPUUtilization) []

/-- The fields of `ConsulResolver` that the refresh pipeline reads and
writes.  `logger` is `true` iff a non-nil `util.Logger` was installed
with `SetLogger`.  `zoneCPUUpdated` is carried verbatim: no code in the
repository ever assigns it. -/
structure ResolverState where
  zone : String
  cpuThreshold : ℚ
  zoneCPUMap : SMap
  instanceFactorMap : SMap
  balanceFactorCache : SMap
  serviceZones : List ServiceZone
  localZone : Option ServiceZone
  candidatePool : Option CandidatePool
  onlineLab : Option OnlineLab
  zoneCPUUpdated : Bool
  logger : Bool
deriving DecidableEq

/-- `updateAll` (source lines 201-227).  The five fetch+decode results
arrive as `Except String _` oracles; `expire` is the outcome of the
random eviction draw of `expireBalanceFactorCache` (source lines
363-368).  Result `none` models a panic (nil logger at line 202, or nil
`localZone` inside `updateCandidatePool`); otherwise
`some (st, some e)` models `return err` with the resolver mutated in
place up to the failing step, and `some (st, none)` a completed cycle. -/
def updateAll (st : ResolverState)
    (fCPU : Except String ℚ)
    (fZone : Except String (List (List (String × ℚ))))
    (fLab : Except String OnlineLab)
    (fInst : Except String (List InstanceMetaInfo))
    (fService : Except String (List ServiceEntry))
    (expire : Bool) : Option (ResolverState × Option String) :=
  if st.logger = false then none
  else
    match fCPU with
    | .error e => some (st, some e)
    | .ok ct =>
      let st1 := { st with cpuThreshold := ct }
      match fZone with
      | .error e => some (st1, some e)
      | .ok zc =>
        let st2 := { st1 with zoneCPUMap := flattenZoneCPU zc }
        match fLab with
        | .error e => some (st2, some e)
        | .ok ol =>
          let st3 := { st2 with onlineLab := some ol }
          match fInst with
          | .error e => some (st3, some e)
          | .ok im =>
            let st4 := { st3 with instanceFactorMap := buildInstanceFactorMap im }
            match fService with
            | .error e => some (st4, some e)
            | .ok entries =>
              let r := updateServiceZone st4.zone st4.zoneCPUMap st4.instanceFactorMap
                entries st4.localZone
              let st5 := { st4 with serviceZones := r.1, localZone := (r.2).1, instanceFactorMap := (r.2).2 }
              let st6 := if expire then { st5 with balanceFactorCache := [] } else st5
              match updateCandidatePool st6.localZone st6.serviceZones
                  st6.balanceFactorCache st6.cpuThreshold ol st6.zoneCPUUpdated with
              | none => none
              | some pc =>
                some ({ st6 with candidatePool := some pc.1, balanceFactorCache := pc.2 }, none)

/-- `Start` (source lines 169-195): one synchronous `updateAll`; an
error aborts startup.  The background ticker task is not modelled. -/
def Start (st : ResolverState)
    (fCPU : Except String ℚ)
    (fZone : Except String (List (List (String × ℚ))))
    (fLab : Except String OnlineLab)
    (fInst : Except String (List InstanceMetaInfo))
    (fService : Except String (List ServiceEntry))
    (expire : Bool) : Option (Except String ResolverState) :=
  match updateAll st fCPU fZone fLab fInst fService expire with
  | none => none
  | some (_, some e) => some (.error e)
  | some (st', none) => some (.ok st')

/-! ### Concrete example inputs used by witnesses and counterexamples -/

/-- Example hyperparameters: cross-zone on, learning rate 0.2,
rate threshold 0.1, factor start rate 0.3. -/
def exOl : OnlineLab :=
  { CrossZone := true, CrossZoneRate := 0, FactorCacheExpire := 100
    FactorStartRate := 3/10, LearningRate := 1/5, RateThreshold := 1/10 }

/-- Same hyperparameters with cross-zone traffic disabled. -/
def exOlNoCross : OnlineLab := { exOl with CrossZone := false }

/-- A remote-zone node: declared factor 1000, workload 60. -/
def exNodeB : ServiceNode :=
  { dfltNode with InstanceID := "b1", Zone := "B", BalanceFactor := 1000, WorkLoad := 60 }

/-- Local zone A, saturated (workload 95), no nodes of its own. -/
def exZoneA : ServiceZone := { Nodes := [], Zone := "A", WorkLoad := 95 }

/-- Remote zone B, workload 40, holding `exNodeB`. -/
def exZoneB : ServiceZone := { Nodes := [exNodeB], Zone := "B", WorkLoad := 40 }

/-- Local node N1 of scenario S5. -/
def exN1 : ServiceNode :=
  { dfltNode with InstanceID := "n1", Zone := "A", BalanceFactor := 1000, WorkLoad := 50 }

/-- Local node N2 of scenario S5 (absent from the factor cache). -/
def exN2 : ServiceNode :=
  { dfltNode with InstanceID := "n2", Zone := "A", BalanceFactor := 1000, WorkLoad := 50 }

/-- Local zone A with nodes N1, N2 (scenario S5). -/
def exZoneA2 : ServiceZone := { Nodes := [exN1, exN2], Zone := "A", WorkLoad := 50 }

/-- A registry entry whose instance "i-1" appears in the factor map. -/
def exEntry : ServiceEntry :=
  { MetaZone := "A", MetaBalanceFactor := 0, MetaInstanceID := "i-1"
    MetaPublicIP := "ip", Address := "h", Port := 80 }

/-- A resolver state with a configured logger and cpuThreshold 10. -/
def exState : ResolverState :=
  { zone := "A", cpuThreshold := 10, zoneCPUMap := [], instanceFactorMap := []
    balanceFactorCache := [], serviceZones := [], localZone := none
    candidatePool := none, onlineLab := none, zoneCPUUpdated := false, logger := true }

/-- The same resolver state before any `SetLogger` call. -/
def exStateNoLogger : ResolverState := { exState with logger := false }

/-- A published pool with factors 2 and 1 over two nodes. -/
def exPool : CandidatePool :=
  { Nodes := [exN1, exN2], Factors := [2, 1], Weights := [0, 0], FactorSum := 3 }


/-- The parallel-sequences invariant of a pool under construction. -/
def PoolInv (st : BuildState) : Prop :=
  st.pool.Nodes.length = st.pool.Factors.length ∧
  st.pool.Factors.length = st.pool.Weights.length ∧
  st.pool.FactorSum = st.pool.Factors.sum

/-- Bounds a pool entry's factor must satisfy, by the entry's zone. -/
def ZoneFactorOK (lzZone : String) (n : ServiceNode) (bf : ℚ) : Prop :=
  if n.Zone = lzZone then
    BALANCEFACTOR_MIN_LOCAL ≤ bf ∧ bf ≤ BALANCEFACTOR_MAX_LOCAL
  else
    BALANCEFACTOR_MIN_CROSS ≤ bf ∧ bf ≤ BALANCEFACTOR_MAX_CROSS

/-- The pool published by the refresh of the S4-like example (local zone
A saturated, one remote node b1 whose factor ends at 144). -/
def exPoolC1 : CandidatePool :=
  { Nodes := [{ exNodeB with CurrentFactor := 144 }], Factors := [144]
    Weights := [0], FactorSum := 144 }

/-- The balance-factor cache written by that refresh. -/
def exCacheC1 : SMap := [("b1", 144)]

/-! ### Theorems -/

/-- C10: a configured logger is a de-facto precondition of the refresh
pipeline.  `updateAll` invokes the logger unconditionally as its first
action (source line 202), so `Start` on a resolver whose logger was
never set faults on the nil logger (modelled as `none`). -/
theorem C10_nil_logger (st : ResolverState) (f1 : Except String ℚ)
    (f2 : Except String (List (List (String × ℚ)))) (f3 : Except String OnlineLab)
    (f4 : Except String (List InstanceMetaInfo)) (f5 : Except String (List ServiceEntry))
    (expire : Bool) (h : st.logger = false) :
    Start st f1 f2 f3 f4 f5 expire = none := by
  simp [Start, updateAll, h]

/-- C10 witness: the fault at a concrete resolver state. -/
theorem C10_nil_logger_witness :
    exStateNoLogger.logger = false ∧
      Start exStateNoLogger (.ok 0) (.ok []) (.ok exOl) (.ok []) (.ok []) false = none :=
  ⟨rfl, C10_nil_logger exStateNoLogger (.ok 0) (.ok []) (.ok exOl) (.ok []) (.ok []) false rfl⟩

/-- C9: `updateCandidatePool` requires a non-nil local zone.  When the
resolver's `localZone` is nil and the registry returned at least one
zone, the zone comparison `r.localZone.Zone == serviceZone.Zone`
(source line 382) dereferences the nil pointer and the refresh faults. -/
theorem C9_nil_local_zone (szs : List ServiceZone) (cache : SMap) (th : ℚ)
    (ol : OnlineLab) (zcu : Bool) (h : szs ≠ []) :
    updateCandidatePool none szs cache th ol zcu = none := by
  cases szs with
  | nil => exact absurd rfl h
  | cons z zs => rfl

/-- C9 witness: the fault at a concrete non-empty zone list. -/
theorem C9_nil_local_zone_witness :
    ([dfltZone] : List ServiceZone) ≠ [] ∧
      updateCandidatePool none [dfltZone] [] 0 exOl false = none :=
  ⟨by decide, C9_nil_local_zone [dfltZone] [] 0 exOl false (by decide)⟩

/-- C2 (code-bug evaluation): with instance "i-1" present in the
instance factor map with CPU value 50, the node built by
`updateServiceZone` keeps the Go struct zero value 0 as its workload —
the looked-up value is written back into the map (source line 327) but
never stored on the node, contradicting the claim that a present entry
yields that entry's CPU value. -/
theorem C2_present_instance_workload_eval :
    (((updateServiceZone "A" [] [("i-1", 50)] [exEntry] none).1.headD dfltZone).Nodes.headD
        dfltNode).WorkLoad = 0
    ∧ (((updateServiceZone "A" [] [] [exEntry] none).1.headD dfltZone).Nodes.headD
        dfltNode).WorkLoad = 100
    ∧ ((0 : ℚ) ≠ 50) := by decide

/-- C4 (code-bug evaluation): scenario S5 with N1 cached at 500,
factor_start_rate 0.3 and the nudge gate closed.  The code seeds N2 with
`declared_factor * factor_start_rate = 300`, not with the local average
500 from N1's cached factor: `localAvgFactor` is assigned only after the
local-zone pass (source lines 424-427), so it is still 0 at every read
inside the pass and the warm-start branch (line 393) can never fire. -/
theorem C4_warm_start_eval :
    (updateCandidatePool (some exZoneA2) [exZoneA2] [("n1", 500)] 70 exOlNoCross false).map
        (fun x => x.1.Factors) = some [500, 300]
    ∧ ((300 : ℚ) ≠ 500) := by
  norm_num [updateCandidatePool, buildZoneStep, processLocalNode, appendNode, nodeBalanced,
    mathAbs, localClamp, emptyPool, exZoneA2, exOlNoCross, exOl, exN1, exN2, dfltNode, mapSet,
    List.foldlM, List.lookup, BALANCEFACTOR_MAX_LOCAL, BALANCEFACTOR_MIN_LOCAL]
  decide

/-- C1 counterexample: cross-zone node b1 has workload 60 above its zone
B's 40 and is not balanced against it; zone_cpu_updated is true and the
spill gate is open, so the factor reaches 120 after the zone-level
nudge.  The code then INCREASES it to 144 (source line 461), while the
claim (same nudge as step A.3, i.e. decrease when the node's workload
exceeds the zone's) would give 96. -/
theorem C1_cross_nudge_counterexample :
    nodeBalanced exOl exNodeB exZoneB = false
    ∧ exNodeB.WorkLoad > exZoneB.WorkLoad
    ∧ (updateCandidatePool (some exZoneA) [exZoneA, exZoneB] [] 70 exOl true).map
        (fun x => x.1.Factors) = some [144]
    ∧ crossClamp (crossPreNudge exOl exZoneA exZoneB 70 true [] exNodeB
        - crossPreNudge exOl exZoneA exZoneB 70 true [] exNodeB * exOl.LearningRate) = 96
    ∧ ((144 : ℚ) ≠ 96) := by
  norm_num [updateCandidatePool, buildZoneStep, processLocalNode, processCrossNode, appendNode,
    nodeBalanced, zoneBalanced, mathAbs, crossSpill, crossPreNudge, crossNodeNudge, localClamp,
    crossClamp, emptyPool, exZoneA, exZoneB, exNodeB, exOl, dfltNode, mapSet, List.foldlM,
    List.lookup, BALANCEFACTOR_MAX_LOCAL, BALANCEFACTOR_MIN_LOCAL, BALANCEFACTOR_MAX_CROSS,
    BALANCEFACTOR_MIN_CROSS, BALANCEFACTOR_START_CROSS, BALANCEFACTOR_CROSS_RATE]
  all_goals simp

/-- C1 amended: for every cross-zone node processed while
zone_cpu_updated is true, if the node is not balanced against its zone
the node-level nudge is the MIRROR of local-zone step A.3: when
`n.workload > zone.workload` the factor is increased by
`factor * learning_rate`, and otherwise it is decreased by it (source
lines 459-467), before the cross clamp is applied. -/
theorem C1_cross_nudge_amended (ol : OnlineLab) (lz sz : ServiceZone) (th : ℚ)
    (st : BuildState) (node : ServiceNode) (hb : nodeBalanced ol node sz = false) :
    (processCrossNode ol true lz sz th st node).pool.Factors =
      st.pool.Factors ++
        [crossClamp (if node.WorkLoad > sz.WorkLoad
          then crossPreNudge ol lz sz th true st.cache node
            + crossPreNudge ol lz sz th true st.cache node * ol.LearningRate
          else crossPreNudge ol lz sz th true st.cache node
            - crossPreNudge ol lz sz th true st.cache node * ol.LearningRate)] := by
  simp [processCrossNode, appendNode, crossNodeNudge, hb]

/-- C1 amended witness: the increase branch at the concrete S4-like
input (factor 120 nudged up to 144). -/
theorem C1_cross_nudge_amended_witness :
    nodeBalanced exOl exNodeB exZoneB = false ∧
      (processCrossNode exOl true exZoneA exZoneB 70
          { pool := emptyPool, cache := [], localAvg := 0 } exNodeB).pool.Factors =
        emptyPool.Factors ++
          [crossClamp (if exNodeB.WorkLoad > exZoneB.WorkLoad
            then crossPreNudge exOl exZoneA exZoneB 70 true [] exNodeB
              + crossPreNudge exOl exZoneA exZoneB 70 true [] exNodeB * exOl.LearningRate
            else crossPreNudge exOl exZoneA exZoneB 70 true [] exNodeB
              - crossPreNudge exOl exZoneA exZoneB 70 true [] exNodeB * exOl.LearningRate)] :=
  ⟨by norm_num [nodeBalanced, mathAbs, exOl, exNodeB, exZoneB, dfltNode],
    C1_cross_nudge_amended exOl exZoneA exZoneB 70
      { pool := emptyPool, cache := [], localAvg := 0 } exNodeB
      (by norm_num [nodeBalanced, mathAbs, exOl, exNodeB, exZoneB, dfltNode])⟩

/-- C3 counterexample: a cycle whose first fetch succeeds (cpuThreshold
99) and whose second fetch fails aborts with the error, but the already
applied cpuThreshold update survives — the new config is NOT applied
all-or-nothing. -/
theorem C3_partial_config_counterexample :
    updateAll exState (.ok 99) (.error "boom") (.error "x") (.error "x") (.error "x") false
      = some ({ exState with cpuThreshold := 99 }, some "boom")
    ∧ ({ exState with cpuThreshold := 99 }).cpuThreshold ≠ exState.cpuThreshold := by decide

/-- C3 amended: a failing fetch aborts the cycle with its error and
leaves the candidate pool, the factor cache, the topology, its own state
and the state of all later fetches unchanged; however the state written
by fetches that completed earlier in the fixed order (cpu_threshold,
zone CPU map, online-lab, instance factor map) remains applied —
application is atomic per individual fetch, not across the cycle. -/
theorem C3_fetch_error_amended (st : ResolverState) (hlog : st.logger = true)
    (e : String) (ct : ℚ) (zc : List (List (String × ℚ))) (olp : OnlineLab)
    (f2 : Except String (List (List (String × ℚ)))) (f3 : Except String OnlineLab)
    (f4 : Except String (List InstanceMetaInfo)) (f5 : Except String (List ServiceEntry))
    (expire : Bool) :
    updateAll st (.error e) f2 f3 f4 f5 expire = some (st, some e)
    ∧ updateAll st (.ok ct) (.error e) f3 f4 f5 expire
        = some ({ st with cpuThreshold := ct }, some e)
    ∧ updateAll st (.ok ct) (.ok zc) (.error e) f4 f5 expire
        = some ({ st with cpuThreshold := ct, zoneCPUMap := flattenZoneCPU zc }, some e)
    ∧ updateAll st (.ok ct) (.ok zc) (.ok olp) (.error e) f5 expire
        = some ({ st with cpuThreshold := ct, zoneCPUMap := flattenZoneCPU zc, onlineLab := some olp }, some e) := by
  simp [updateAll, hlog]

/-- C3 amended witness: the first-fetch failure at a concrete state. -/
theorem C3_fetch_error_amended_witness :
    exState.logger = true ∧
      updateAll exState (.error "boom") (.error "x") (.error "x") (.error "x") (.error "x") false
        = some (exState, some "boom") :=
  ⟨rfl, (C3_fetch_error_amended exState rfl "boom" 99 [] exOl (.error "x") (.error "x")
    (.error "x") (.error "x") false).1⟩

/-! #### Fold-preservation helpers -/

/-- A property preserved by every step of a fold is preserved by the fold. -/
theorem foldl_preserves {α β : Type} (P : β → Prop) (f : β → α → β) :
    ∀ (l : List α), (∀ b, ∀ a ∈ l, P b → P (f b a)) → ∀ b, P b → P (l.foldl f b) := by
  intro l
  induction l with
  | nil => exact fun _ b hb => hb
  | cons x xs ih =>
    intro hf b hb
    exact ih (fun b' a ha => hf b' a (List.mem_cons_of_mem x ha)) (f b x)
      (hf b x (List.mem_cons_self x xs) hb)

/-- A property preserved by every successful step of an Option-valued
fold is carried from the initial state to a successful final state. -/
theorem foldlM_option_preserves {α β : Type} (P : β → Prop) (f : β → α → Option β) :
    ∀ (l : List α), (∀ b, ∀ a ∈ l, ∀ b', f b a = some b' → P b → P b') →
      ∀ b b', List.foldlM f b l = some b' → P b → P b' := by
  intro l
  induction l with
  | nil =>
    intro _ b b' h hb
    cases h
    exact hb
  | cons x xs ih =>
    intro hf b b' h hb
    cases hx : f b x with
    | none =>
      rw [show List.foldlM f b (x :: xs) = f b x >>= fun s => List.foldlM f s xs from rfl,
        hx] at h
      cases h
    | some b1 =>
      rw [show List.foldlM f b (x :: xs) = f b x >>= fun s => List.foldlM f s xs from rfl,
        hx] at h
      exact ih (fun c a ha c' => hf c a (List.mem_cons_of_mem x ha) c') b1 b' h
        (hf b x (List.mem_cons_self x xs) b1 hx hb)

/-- Appending one node keeps the parallel-sequences invariant. -/
theorem appendNode_poolInv (st : BuildState) (node : ServiceNode) (bf : ℚ)
    (h : PoolInv st) : PoolInv (appendNode st node bf) := by
  obtain ⟨h1, h2, h3⟩ := h
  refine ⟨?_, ?_, ?_⟩ <;> simp [appendNode, h1, h2, h3]

/-- The local-zone loop body keeps the parallel-sequences invariant. -/
theorem processLocalNode_poolInv (ol : OnlineLab) (zcu : Bool) (sz : ServiceZone)
    (fc : Bool) (st : BuildState) (node : ServiceNode) (h : PoolInv st) :
    PoolInv (processLocalNode ol zcu sz fc st node) :=
  appendNode_poolInv st node _ h

/-- The cross-zone loop body keeps the parallel-sequences invariant. -/
theorem processCrossNode_poolInv (ol : OnlineLab) (zcu : Bool) (lz sz : ServiceZone)
    (th : ℚ) (st : BuildState) (node : ServiceNode) (h : PoolInv st) :
    PoolInv (processCrossNode ol zcu lz sz th st node) :=
  appendNode_poolInv st node _ h

/-- One zone pass keeps the parallel-sequences invariant. -/
theorem buildZoneStep_poolInv (ol : OnlineLab) (zcu : Bool) (th : ℚ) (fc : Bool)
    (lzOpt : Option ServiceZone) (st : BuildState) (sz : ServiceZone) (st' : BuildState)
    (h : buildZoneStep ol zcu th fc lzOpt st sz = some st') (hP : PoolInv st) :
    PoolInv st' := by
  cases lzOpt with
  | none => cases h
  | some lz =>
    simp only [buildZoneStep] at h
    by_cases h1 : lz.Zone = sz.Zone
    · rw [if_pos h1] at h
      have hfold : PoolInv (sz.Nodes.foldl (processLocalNode ol zcu sz fc) st) :=
        foldl_preserves PoolInv _ sz.Nodes
          (fun b a _ hb => processLocalNode_poolInv ol zcu sz fc b a hb) st hP
      split at h <;> (cases h; exact hfold)
    · rw [if_neg h1] at h
      by_cases h2 : ol.CrossZone = true
      · rw [if_pos h2] at h
        cases h
        exact foldl_preserves PoolInv _ sz.Nodes
          (fun b a _ hb => processCrossNode_poolInv ol zcu lz sz th b a hb) st hP
      · rw [if_neg h2] at h
        cases h
        exact hP

/-- C6: after every refresh that publishes a candidate pool, the three
sequences nodes, factors and weights have equal length, and factor_sum
equals the arithmetic sum of factors. -/
theorem C6_pool_parallel_invariant (lzOpt : Option ServiceZone) (szs : List ServiceZone)
    (cache : SMap) (th : ℚ) (ol : OnlineLab) (zcu : Bool) (pool : CandidatePool)
    (cache2 : SMap) (h : updateCandidatePool lzOpt szs cache th ol zcu = some (pool, cache2)) :
    pool.Nodes.length = pool.Factors.length ∧ pool.Factors.length = pool.Weights.length
      ∧ pool.FactorSum = pool.Factors.sum := by
  simp only [updateCandidatePool] at h
  cases hf : szs.foldlM (buildZoneStep ol zcu th (decide (0 < cache.length)) lzOpt)
      { pool := emptyPool, cache := cache, localAvg := 0 } with
  | none => rw [hf] at h; cases h
  | some stf =>
    rw [hf] at h
    have hinv : PoolInv stf :=
      foldlM_option_preserves PoolInv _ szs
        (fun b a _ b' hb hPb => buildZoneStep_poolInv ol zcu th _ lzOpt b a b' hb hPb)
        _ stf hf ⟨rfl, rfl, rfl⟩
    cases h
    exact hinv

/-- C6 witness: the invariant at the concrete published pool of the
S4-like refresh. -/
theorem C6_pool_parallel_invariant_witness :
    updateCandidatePool (some exZoneA) [exZoneA, exZoneB] [] 70 exOl true
        = some (exPoolC1, exCacheC1)
    ∧ (exPoolC1.Nodes.length = exPoolC1.Factors.length
        ∧ exPoolC1.Factors.length = exPoolC1.Weights.length
        ∧ exPoolC1.FactorSum = exPoolC1.Factors.sum) :=
  ⟨by
    norm_num [updateCandidatePool, buildZoneStep, processLocalNode, processCrossNode, appendNode,
      nodeBalanced, zoneBalanced, mathAbs, crossSpill, crossPreNudge, crossNodeNudge, localClamp,
      crossClamp, emptyPool, exZoneA, exZoneB, exNodeB, exOl, dfltNode, mapSet, List.foldlM,
      List.lookup, BALANCEFACTOR_MAX_LOCAL, BALANCEFACTOR_MIN_LOCAL, BALANCEFACTOR_MAX_CROSS,
      BALANCEFACTOR_MIN_CROSS, BALANCEFACTOR_START_CROSS, BALANCEFACTOR_CROSS_RATE,
      exPoolC1, exCacheC1]
    all_goals simp,
   C6_pool_parallel_invariant (some exZoneA) [exZoneA, exZoneB] [] 70 exOl true exPoolC1 exCacheC1 (by
    norm_num [updateCandidatePool, buildZoneStep, processLocalNode, processCrossNode, appendNode,
      nodeBalanced, zoneBalanced, mathAbs, crossSpill, crossPreNudge, crossNodeNudge, localClamp,
      crossClamp, emptyPool, exZoneA, exZoneB, exNodeB, exOl, dfltNode, mapSet, List.foldlM,
      List.lookup, BALANCEFACTOR_MAX_LOCAL, BALANCEFACTOR_MIN_LOCAL, BALANCEFACTOR_MAX_CROSS,
      BALANCEFACTOR_MIN_CROSS, BALANCEFACTOR_START_CROSS, BALANCEFACTOR_CROSS_RATE,
      exPoolC1, exCacheC1]
    all_goals simp)⟩

/-- The local clamp lands in `[BALANCEFACTOR_MIN_LOCAL, BALANCEFACTOR_MAX_LOCAL]`. -/
theorem localClamp_bounds (bf : ℚ) :
    BALANCEFACTOR_MIN_LOCAL ≤ localClamp bf ∧ localClamp bf ≤ BALANCEFACTOR_MAX_LOCAL := by
  unfold localClamp BALANCEFACTOR_MIN_LOCAL BALANCEFACTOR_MAX_LOCAL
  split_ifs with h1 h2
  · norm_num
  · norm_num
  · push_neg at h1 h2
    exact ⟨h2, h1⟩

/-- The cross clamp lands in `[BALANCEFACTOR_MIN_CROSS, BALANCEFACTOR_MAX_CROSS]`. -/
theorem crossClamp_bounds (bf : ℚ) :
    BALANCEFACTOR_MIN_CROSS ≤ crossClamp bf ∧ crossClamp bf ≤ BALANCEFACTOR_MAX_CROSS := by
  unfold crossClamp BALANCEFACTOR_MIN_CROSS BALANCEFACTOR_MAX_CROSS
  split_ifs with h1 h2
  · norm_num
  · norm_num
  · push_neg at h1 h2
    exact ⟨h2, h1⟩

/-- `Forall₂` survives appending one related pair. -/
theorem forall₂_append_single {α β : Type} {R : α → β → Prop} {l₁ : List α} {l₂ : List β}
    {a : α} {b : β} (h : List.Forall₂ R l₁ l₂) (hab : R a b) :
    List.Forall₂ R (l₁ ++ [a]) (l₂ ++ [b]) :=
  List.rel_append h (List.Forall₂.cons hab List.Forall₂.nil)

/-- Reading a `Forall₂` pointwise through `getD`. -/
theorem forall₂_getD {α β : Type} {R : α → β → Prop} (dA : α) (dB : β)
    {l₁ : List α} {l₂ : List β} (h : List.Forall₂ R l₁ l₂) :
    ∀ i < l₁.length, R (l₁.getD i dA) (l₂.getD i dB) := by
  induction h with
  | nil => intro i hi; simp at hi
  | cons hab htl ih =>
    intro i hi
    cases i with
    | zero => simpa using hab
    | succ n =>
      simp only [List.getD_cons_succ]
      exact ih n (Nat.lt_of_succ_lt_succ (by simpa using hi))

/-- Appending a node whose factor satisfies the zone bounds keeps the
bounds relation between nodes and factors. -/
theorem appendNode_factorsInv (lzZone : String) (st : BuildState) (node : ServiceNode)
    (bf : ℚ) (h : List.Forall₂ (ZoneFactorOK lzZone) st.pool.Nodes st.pool.Factors)
    (hnb : ZoneFactorOK lzZone { node with CurrentFactor := bf } bf) :
    List.Forall₂ (ZoneFactorOK lzZone) (appendNode st node bf).pool.Nodes
      (appendNode st node bf).pool.Factors :=
  forall₂_append_single h hnb

/-- A local-zone node (its zone equal to the local zone's) gets a factor
inside the local bounds. -/
theorem processLocalNode_factorsInv (lzZone : String) (ol : OnlineLab) (zcu : Bool)
    (sz : ServiceZone) (fc : Bool) (st : BuildState) (node : ServiceNode)
    (hz : node.Zone = lzZone)
    (h : List.Forall₂ (ZoneFactorOK lzZone) st.pool.Nodes st.pool.Factors) :
    List.Forall₂ (ZoneFactorOK lzZone) (processLocalNode ol zcu sz fc st node).pool.Nodes
      (processLocalNode ol zcu sz fc st node).pool.Factors := by
  refine appendNode_factorsInv lzZone st node _ h ?_
  simp only [ZoneFactorOK, hz, if_pos]
  exact localClamp_bounds _

/-- A cross-zone node (its zone different from the local zone's) gets a
factor inside the cross bounds. -/
theorem processCrossNode_factorsInv (lzZone : String) (ol : OnlineLab) (zcu : Bool)
    (lz sz : ServiceZone) (th : ℚ) (st : BuildState) (node : ServiceNode)
    (hz : ¬node.Zone = lzZone)
    (h : List.Forall₂ (ZoneFactorOK lzZone) st.pool.Nodes st.pool.Factors) :
    List.Forall₂ (ZoneFactorOK lzZone) (processCrossNode ol zcu lz sz th st node).pool.Nodes
      (processCrossNode ol zcu lz sz th st node).pool.Factors := by
  refine appendNode_factorsInv lzZone st node _ h ?_
  simp only [ZoneFactorOK, hz, if_neg]
  exact crossClamp_bounds _

/-- One zone pass keeps the bounds relation, provided the zone's nodes
really carry that zone's name. -/
theorem buildZoneStep_factorsInv (ol : OnlineLab) (zcu : Bool) (th : ℚ) (fc : Bool)
    (lz : ServiceZone) (st : BuildState) (sz : ServiceZone) (st' : BuildState)
    (hwfz : ∀ nd ∈ sz.Nodes, nd.Zone = sz.Zone)
    (h : buildZoneStep ol zcu th fc (some lz) st sz = some st')
    (hP : List.Forall₂ (ZoneFactorOK lz.Zone) st.pool.Nodes st.pool.Factors) :
    List.Forall₂ (ZoneFactorOK lz.Zone) st'.pool.Nodes st'.pool.Factors := by
  simp only [buildZoneStep] at h
  by_cases h1 : lz.Zone = sz.Zone
  · rw [if_pos h1] at h
    have hfold := foldl_preserves
      (fun b => List.Forall₂ (ZoneFactorOK lz.Zone) b.pool.Nodes b.pool.Factors)
      (processLocalNode ol zcu sz fc) sz.Nodes
      (fun b a ha hb =>
        processLocalNode_factorsInv lz.Zone ol zcu sz fc b a ((hwfz a ha).trans h1.symm) hb)
      st hP
    split at h <;> (cases h; exact hfold)
  · rw [if_neg h1] at h
    by_cases h2 : ol.CrossZone = true
    · rw [if_pos h2] at h
      cases h
      exact foldl_preserves
        (fun b => List.Forall₂ (ZoneFactorOK lz.Zone) b.pool.Nodes b.pool.Factors)
        (processCrossNode ol zcu lz sz th) sz.Nodes
        (fun b a ha hb =>
          processCrossNode_factorsInv lz.Zone ol zcu lz sz th b a
            (fun hc => h1 ((hc.symm.trans (hwfz a ha)).symm).symm) hb)
        st hP
    · rw [if_neg h2] at h
      cases h
      exact hP

/-- C7: after every refresh, every factor of a local-zone pool entry
lies in `[BALANCEFACTOR_MIN_LOCAL, BALANCEFACTOR_MAX_LOCAL] = [200, 3000]`
and every factor of a cross-zone pool entry lies in
`[BALANCEFACTOR_MIN_CROSS, BALANCEFACTOR_MAX_CROSS] = [1, 1000]`
(entries being classified by their node's zone against the local zone). -/
theorem C7_factor_bounds (lz : ServiceZone) (szs : List ServiceZone) (cache : SMap)
    (th : ℚ) (ol : OnlineLab) (zcu : Bool) (pool : CandidatePool) (cache2 : SMap)
    (hwf : ∀ sz ∈ szs, ∀ nd ∈ sz.Nodes, nd.Zone = sz.Zone)
    (h : updateCandidatePool (some lz) szs cache th ol zcu = some (pool, cache2)) :
    ∀ i < pool.Nodes.length,
      if (pool.Nodes.getD i dfltNode).Zone = lz.Zone then
        BALANCEFACTOR_MIN_LOCAL ≤ pool.Factors.getD i 0
          ∧ pool.Factors.getD i 0 ≤ BALANCEFACTOR_MAX_LOCAL
      else
        BALANCEFACTOR_MIN_CROSS ≤ pool.Factors.getD i 0
          ∧ pool.Factors.getD i 0 ≤ BALANCEFACTOR_MAX_CROSS := by
  simp only [updateCandidatePool] at h
  cases hf : szs.foldlM (buildZoneStep ol zcu th (decide (0 < cache.length)) (some lz))
      { pool := emptyPool, cache := cache, localAvg := 0 } with
  | none => rw [hf] at h; cases h
  | some stf =>
    rw [hf] at h
    have hinv : List.Forall₂ (ZoneFactorOK lz.Zone) stf.pool.Nodes stf.pool.Factors :=
      foldlM_option_preserves
        (fun b => List.Forall₂ (ZoneFactorOK lz.Zone) b.pool.Nodes b.pool.Factors)
        _ szs
        (fun b a ha b' hb hPb =>
          buildZoneStep_factorsInv ol zcu th _ lz b a b' (hwf a ha) hb hPb)
        _ stf hf List.Forall₂.nil
    cases h
    intro i hi
    have := forall₂_getD dfltNode 0 hinv i hi
    simpa [ZoneFactorOK] using this

/-- C7 witness: the bounds at the concrete published pool of the
S4-like refresh (one cross-zone entry with factor 144). -/
theorem C7_factor_bounds_witness :
    (∀ sz ∈ [exZoneA, exZoneB], ∀ nd ∈ sz.Nodes, nd.Zone = sz.Zone)
    ∧ updateCandidatePool (some exZoneA) [exZoneA, exZoneB] [] 70 exOl true
        = some (exPoolC1, exCacheC1)
    ∧ ∀ i < exPoolC1.Nodes.length,
        if (exPoolC1.Nodes.getD i dfltNode).Zone = exZoneA.Zone then
          BALANCEFACTOR_MIN_LOCAL ≤ exPoolC1.Factors.getD i 0
            ∧ exPoolC1.Factors.getD i 0 ≤ BALANCEFACTOR_MAX_LOCAL
        else
          BALANCEFACTOR_MIN_CROSS ≤ exPoolC1.Factors.getD i 0
            ∧ exPoolC1.Factors.getD i 0 ≤ BALANCEFACTOR_MAX_CROSS :=
  ⟨by decide, by
    norm_num [updateCandidatePool, buildZoneStep, processLocalNode, processCrossNode, appendNode,
      nodeBalanced, zoneBalanced, mathAbs, crossSpill, crossPreNudge, crossNodeNudge, localClamp,
      crossClamp, emptyPool, exZoneA, exZoneB, exNodeB, exOl, dfltNode, mapSet, List.foldlM,
      List.lookup, BALANCEFACTOR_MAX_LOCAL, BALANCEFACTOR_MIN_LOCAL, BALANCEFACTOR_MAX_CROSS,
      BALANCEFACTOR_MIN_CROSS, BALANCEFACTOR_START_CROSS, BALANCEFACTOR_CROSS_RATE,
      exPoolC1, exCacheC1]
    all_goals simp,
   C7_factor_bounds exZoneA [exZoneA, exZoneB] [] 70 exOl true exPoolC1 exCacheC1 (by decide) (by
    norm_num [updateCandidatePool, buildZoneStep, processLocalNode, processCrossNode, appendNode,
      nodeBalanced, zoneBalanced, mathAbs, crossSpill, crossPreNudge, crossNodeNudge, localClamp,
      crossClamp, emptyPool, exZoneA, exZoneB, exNodeB, exOl, dfltNode, mapSet, List.foldlM,
      List.lookup, BALANCEFACTOR_MAX_LOCAL, BALANCEFACTOR_MIN_LOCAL, BALANCEFACTOR_MAX_CROSS,
      BALANCEFACTOR_MIN_CROSS, BALANCEFACTOR_START_CROSS, BALANCEFACTOR_CROSS_RATE,
      exPoolC1, exCacheC1]
    all_goals simp)⟩

/-! #### The selection loop -/

/-- An in-range `getD` is a member. -/
theorem getD_mem_of_lt {α : Type} (l : List α) (d : α) :
    ∀ i, i < l.length → l.getD i d ∈ l := by
  induction l with
  | nil => intro i hi; simp at hi
  | cons x xs ih =>
    intro i hi
    cases i with
    | zero => simp
    | succ n =>
      simp only [List.getD_cons_succ]
      exact List.mem_cons_of_mem x (ih n (Nat.lt_of_succ_lt_succ hi))

/-- Summing the updated weights adds the factor sum to the weight sum. -/
theorem sum_updateW (w f : List ℚ) (h : w.length = f.length) :
    (updateW w f).sum = w.sum + f.sum := by
  induction w generalizing f with
  | nil =>
    cases f with
    | nil => simp [updateW]
    | cons b bs => simp at h
  | cons a as ih =>
    cases f with
    | nil => simp at h
    | cons b bs =>
      simp only [updateW, List.zipWith_cons_cons, List.sum_cons] at ih ⊢
      rw [ih bs (by simpa using h)]
      ring

/-- A list of non-positive rationals has non-positive sum. -/
theorem list_sum_nonpos (l : List ℚ) (h : ∀ x ∈ l, x ≤ 0) : l.sum ≤ 0 := by
  induction l with
  | nil => simp
  | cons x xs ih =>
    simp only [List.sum_cons]
    have h1 := h x (List.mem_cons_self x xs)
    have h2 := ih (fun y hy => h y (List.mem_cons_of_mem x hy))
    linarith

/-- A list with positive sum holds a positive element. -/
theorem exists_pos_of_sum_pos (l : List ℚ) (h : 0 < l.sum) : ∃ x ∈ l, 0 < x := by
  by_contra hc
  push_neg at hc
  exact absurd h (not_lt.mpr (list_sum_nonpos l hc))

/-- Full characterisation of the Go selection loop `selAux`: either no
element beats the running maximum and the pair is returned unchanged, or
the result is the first index (offset by `j`) attaining the maximum of
the list among elements strictly above the initial maximum. -/
theorem selAux_spec (l : List ℚ) : ∀ (j : ℕ) (p : ℕ × ℚ),
    (selAux l j p = p ∧ ∀ x ∈ l, x ≤ p.2) ∨
    ∃ k, ∃ _ : k < l.length,
      selAux l j p = (j + k, l.getD k 0) ∧ p.2 < l.getD k 0 ∧
      (∀ i < l.length, l.getD i 0 ≤ l.getD k 0) ∧
      (∀ i < k, l.getD i 0 < l.getD k 0) := by
  induction l with
  | nil =>
    intro j p
    left
    exact ⟨rfl, fun x hx => absurd hx (List.not_mem_nil x)⟩
  | cons x xs ih =>
    intro j p
    by_cases hx : p.2 < x
    · have hstep : selAux (x :: xs) j p = selAux xs (j + 1) (j, x) := by
        simp [selAux, hx]
      rcases ih (j + 1) (j, x) with ⟨heq, hle⟩ | ⟨k, hk, heq, hlt, hmax, hfirst⟩
      · right
        refine ⟨0, Nat.succ_pos _, ?_, ?_, ?_, ?_⟩
        · rw [hstep, heq]
          simp
        · simpa using hx
        · intro i hi
          cases i with
          | zero => simp
          | succ n =>
            simp only [List.getD_cons_succ, List.getD_cons_zero]
            exact hle _ (getD_mem_of_lt xs 0 n (Nat.lt_of_succ_lt_succ hi))
        · intro i hi
          exact absurd hi (Nat.not_lt_zero i)
      · have hxk : x < xs.getD k 0 := by simpa using hlt
        right
        refine ⟨k + 1, Nat.succ_lt_succ hk, ?_, ?_, ?_, ?_⟩
        · rw [hstep, heq]
          have hj : j + 1 + k = j + (k + 1) := by omega
          simp [hj]
        · simp only [List.getD_cons_succ]
          exact lt_trans hx hxk
        · intro i hi
          cases i with
          | zero =>
            simp only [List.getD_cons_zero, List.getD_cons_succ]
            exact le_of_lt hxk
          | succ n =>
            simp only [List.getD_cons_succ]
            exact hmax n (Nat.lt_of_succ_lt_succ hi)
        · intro i hi
          cases i with
          | zero =>
            simp only [List.getD_cons_zero, List.getD_cons_succ]
            exact hxk
          | succ n =>
            simp only [List.getD_cons_succ]
            exact hfirst n (Nat.lt_of_succ_lt_succ hi)
    · have hstep : selAux (x :: xs) j p = selAux xs (j + 1) p := by
        simp [selAux, hx]
      rcases ih (j + 1) p with ⟨heq, hle⟩ | ⟨k, hk, heq, hlt, hmax, hfirst⟩
      · left
        refine ⟨by rw [hstep, heq], ?_⟩
        intro y hy
        rcases List.mem_cons.mp hy with h | h
        · rw [h]
          exact le_of_not_lt hx
        · exact hle y h
      · right
        refine ⟨k + 1, Nat.succ_lt_succ hk, ?_, ?_, ?_, ?_⟩
        · rw [hstep, heq]
          have hj : j + 1 + k = j + (k + 1) := by omega
          simp [hj]
        · simp only [List.getD_cons_succ]
          exact hlt
        · intro i hi
          cases i with
          | zero =>
            simp only [List.getD_cons_zero, List.getD_cons_succ]
            exact le_trans (le_of_not_lt hx) (le_of_lt hlt)
          | succ n =>
            simp only [List.getD_cons_succ]
            exact hmax n (Nat.lt_of_succ_lt_succ hi)
        · intro i hi
          cases i with
          | zero =>
            simp only [List.getD_cons_zero, List.getD_cons_succ]
            exact lt_of_le_of_lt (le_of_not_lt hx) hlt
          | succ n =>
            simp only [List.getD_cons_succ]
            exact hfirst n (Nat.lt_of_succ_lt_succ hi)

/-- When some updated weight is positive, the Go loop (which starts its
running maximum at 0) picks exactly the first index attaining the
maximum. -/
theorem wsel_spec (u : List ℚ) (hpos : ∃ x ∈ u, 0 < x) :
    wsel u < u.length ∧ 0 < u.getD (wsel u) 0 ∧
      (∀ i < u.length, u.getD i 0 ≤ u.getD (wsel u) 0) ∧
      ∀ i < wsel u, u.getD i 0 < u.getD (wsel u) 0 := by
  obtain ⟨x, hxm, hx0⟩ := hpos
  rcases selAux_spec u 0 (0, 0) with ⟨_, hle⟩ | ⟨k, hk, heq, hlt, hmax, hfirst⟩
  · exact absurd (hle x hxm) (not_le.mpr hx0)
  · have hw : wsel u = k := by
      unfold wsel
      rw [heq]
      simp
    rw [hw]
    refine ⟨hk, ?_, hmax, hfirst⟩
    simpa using hlt

/-- C5: `SelectNode` on an empty pool returns the absent sentinel;
otherwise it adds each factor to its weight, picks the smallest index
attaining the maximum updated weight (first maximum wins ties),
subtracts `factor_sum` from that weight and returns that node.  The
hypotheses (equal lengths, weights summing to 0, positive factors) hold
for every pool reachable from a published refresh. -/
theorem C5_select_node (p : CandidatePool)
    (hlen1 : p.Weights.length = p.Factors.length)
    (hlen2 : p.Nodes.length = p.Factors.length)
    (hwsum : p.Weights.sum = 0)
    (hpos : ∀ x ∈ p.Factors, 0 < x) :
    (p.Nodes = [] → SelectNode p = none) ∧
    (p.Nodes ≠ [] →
      SelectNode p = some (p.Nodes.getD (selIdx p) dfltNode,
        { p with
          Weights := (updateW p.Weights p.Factors).set (selIdx p)
            ((updateW p.Weights p.Factors).getD (selIdx p) 0 - p.FactorSum) }) ∧
      selIdx p < (updateW p.Weights p.Factors).length ∧
      (∀ j < (updateW p.Weights p.Factors).length,
        (updateW p.Weights p.Factors).getD j 0
          ≤ (updateW p.Weights p.Factors).getD (selIdx p) 0) ∧
      ∀ j < selIdx p,
        (updateW p.Weights p.Factors).getD j 0
          < (updateW p.Weights p.Factors).getD (selIdx p) 0) := by
  constructor
  · intro h
    simp [SelectNode, h]
  · intro hne
    have hfne : p.Factors ≠ [] := by
      intro h0
      apply hne
      rw [h0] at hlen2
      exact List.length_eq_zero.mp hlen2
    have hex : ∃ x ∈ updateW p.Weights p.Factors, 0 < x := by
      apply exists_pos_of_sum_pos
      rw [sum_updateW _ _ hlen1, hwsum, zero_add]
      exact List.sum_pos p.Factors hpos hfne
    have hspec := wsel_spec (updateW p.Weights p.Factors) hex
    refine ⟨?_, hspec.1, hspec.2.2.1, hspec.2.2.2⟩
    simp [SelectNode, hne, selIdx]

/-- C5 witness: the pool with factors 2, 1 and zero weights; the first
node is selected and its weight drops to -1. -/
theorem C5_select_node_witness :
    exPool.Weights.length = exPool.Factors.length
    ∧ exPool.Nodes.length = exPool.Factors.length
    ∧ exPool.Weights.sum = 0
    ∧ (∀ x ∈ exPool.Factors, 0 < x)
    ∧ ((exPool.Nodes = [] → SelectNode exPool = none) ∧
       (exPool.Nodes ≠ [] →
        SelectNode exPool = some (exPool.Nodes.getD (selIdx exPool) dfltNode,
          { exPool with
            Weights := (updateW exPool.Weights exPool.Factors).set (selIdx exPool)
              ((updateW exPool.Weights exPool.Factors).getD (selIdx exPool) 0
                - exPool.FactorSum) }) ∧
        selIdx exPool < (updateW exPool.Weights exPool.Factors).length ∧
        (∀ j < (updateW exPool.Weights exPool.Factors).length,
          (updateW exPool.Weights exPool.Factors).getD j 0
            ≤ (updateW exPool.Weights exPool.Factors).getD (selIdx exPool) 0) ∧
        ∀ j < selIdx exPool,
          (updateW exPool.Weights exPool.Factors).getD j 0
            < (updateW exPool.Weights exPool.Factors).getD (selIdx exPool) 0)) :=
  ⟨rfl, rfl, by norm_num [exPool], by decide,
    C5_select_node exPool rfl rfl (by norm_num [exPool]) (by decide)⟩

/-! #### Smooth-WRR counting -/

/-- Length of the updated weights vector. -/
theorem length_updateW (w f : List ℚ) : (updateW w f).length = min w.length f.length :=
  List.length_zipWith _ w f

/-- Pointwise reading of the updated weights. -/
theorem getD_updateW (w f : List ℚ) :
    ∀ i, i < w.length → w.length = f.length →
      (updateW w f).getD i 0 = w.getD i 0 + f.getD i 0 := by
  induction w generalizing f with
  | nil => intro i hi; simp at hi
  | cons a as ih =>
    intro i hi h
    cases f with
    | nil => simp at h
    | cons b bs =>
      cases i with
      | zero => simp [updateW]
      | succ n =>
        simp only [updateW, List.zipWith_cons_cons, List.getD_cons_succ] at ih ⊢
        exact ih bs n (Nat.lt_of_succ_lt_succ hi) (by simpa using h)

/-- Reading a `set` cell back. -/
theorem getD_set_self (l : List ℚ) : ∀ (k : ℕ) (v : ℚ), k < l.length →
    (l.set k v).getD k 0 = v := by
  induction l with
  | nil => intro k v hk; simp at hk
  | cons x xs ih =>
    intro k v hk
    cases k with
    | zero => simp
    | succ n => simpa using ih n v (Nat.lt_of_succ_lt_succ hk)

/-- Reading around a `set` cell. -/
theorem getD_set_ne (l : List ℚ) : ∀ (k i : ℕ) (v : ℚ), k ≠ i →
    (l.set k v).getD i 0 = l.getD i 0 := by
  induction l with
  | nil => intro k i v _; simp
  | cons x xs ih =>
    intro k i v hki
    cases k with
    | zero =>
      cases i with
      | zero => exact absurd rfl hki
      | succ j => simp
    | succ n =>
      cases i with
      | zero => simp
      | succ j => simpa using ih n j v (fun h => hki (by rw [h]))

/-- Sum after overwriting one cell. -/
theorem sum_set (l : List ℚ) : ∀ (k : ℕ) (v : ℚ), k < l.length →
    (l.set k v).sum = l.sum - l.getD k 0 + v := by
  induction l with
  | nil => intro k v hk; simp at hk
  | cons x xs ih =>
    intro k v hk
    cases k with
    | zero => simp [List.sum_cons]; ring
    | succ n =>
      simp only [List.set_cons_succ, List.sum_cons, List.getD_cons_succ]
      rw [ih n v (Nat.lt_of_succ_lt_succ hk)]
      ring

/-- One smooth-WRR step: the selected index is in range, the invariant
(weights sum to zero, every weight above `-factor_sum`) is preserved,
and each weight moves by its factor, minus `factor_sum` on the selected
index. -/
theorem wstep_spec (f : List ℚ) (n : ℕ) (w : List ℚ)
    (hf : f.length = n) (hn : 0 < n) (hpos : ∀ x ∈ f, 0 < x)
    (hw : WInv f.sum n w) :
    wsel (updateW w f) < n ∧
    WInv f.sum n (wstep f f.sum w) ∧
    ∀ i < n, (wstep f f.sum w).getD i 0
      = w.getD i 0 + f.getD i 0 - (if wsel (updateW w f) = i then f.sum else 0) := by
  obtain ⟨hlen, hsum, hneg⟩ := hw
  have hfne : f ≠ [] := by
    intro h0
    rw [h0] at hf
    simp at hf
    omega
  have hS : 0 < f.sum := List.sum_pos f hpos hfne
  have hul : (updateW w f).length = n := by
    rw [length_updateW, hlen, hf, min_self]
  have husum : (updateW w f).sum = f.sum := by
    rw [sum_updateW w f (by rw [hlen, hf]), hsum, zero_add]
  have hex : ∃ x ∈ updateW w f, 0 < x :=
    exists_pos_of_sum_pos _ (by rw [husum]; exact hS)
  obtain ⟨hk, hk0, hmax, hfirst⟩ := wsel_spec (updateW w f) hex
  rw [hul] at hk
  refine ⟨hk, ⟨?_, ?_, ?_⟩, ?_⟩
  · simp only [wstep]
    rw [List.length_set, hul]
  · simp only [wstep]
    rw [sum_set _ _ _ (by rw [hul]; exact hk), husum]
    ring
  · intro i hi
    simp only [wstep]
    by_cases hik : wsel (updateW w f) = i
    · rw [← hik, getD_set_self _ _ _ (by rw [hul]; exact hk)]
      linarith
    · rw [getD_set_ne _ _ _ _ hik]
      rw [getD_updateW w f i (by rw [hlen]; exact hi) (by rw [hlen, hf])]
      have hfi : 0 < f.getD i 0 := hpos _ (getD_mem_of_lt f 0 i (by rw [hf]; exact hi))
      have hwi := hneg i hi
      linarith
  · intro i hi
    simp only [wstep]
    by_cases hik : wsel (updateW w f) = i
    · rw [if_pos hik, ← hik, getD_set_self _ _ _ (by rw [hul]; exact hk)]
      rw [getD_updateW w f _ (by rw [hlen]; exact hk) (by rw [hlen, hf])]
    · rw [if_neg hik, getD_set_ne _ _ _ _ hik]
      rw [getD_updateW w f i (by rw [hlen]; exact hi) (by rw [hlen, hf])]
      ring

/-- Length of the selection trace. -/
theorem wtrace_length (f : List ℚ) (S : ℚ) :
    ∀ (T : ℕ) (w : List ℚ), (wtrace f S w T).length = T := by
  intro T
  induction T with
  | zero => intro w; rfl
  | succ T ih => intro w; simp [wtrace, ih]

/-- Trace invariant: every selected index is in range and each weight's
closed form `w₀ + T·f − S·count` stays above `-S`. -/
theorem wtrace_invariant (f : List ℚ) (n : ℕ) (hf : f.length = n) (hn : 0 < n)
    (hpos : ∀ x ∈ f, 0 < x) :
    ∀ (T : ℕ) (w : List ℚ), WInv f.sum n w →
      (∀ x ∈ wtrace f f.sum w T, x < n) ∧
      ∀ i < n, -f.sum < w.getD i 0 + (T : ℚ) * f.getD i 0
        - f.sum * ((wtrace f f.sum w T).count i : ℚ) := by
  intro T
  induction T with
  | zero =>
    intro w hw
    refine ⟨?_, ?_⟩
    · intro x hx
      simp [wtrace] at hx
    · intro i hi
      have := hw.2.2 i hi
      simpa [wtrace] using this
  | succ T ih =>
    intro w hw
    obtain ⟨hkn, hw2, hstep⟩ := wstep_spec f n w hf hn hpos hw
    obtain ⟨htr, hbound⟩ := ih (wstep f f.sum w) hw2
    refine ⟨?_, ?_⟩
    · intro x hx
      simp only [wtrace, List.mem_cons] at hx
      rcases hx with h | h
      · rw [h]; exact hkn
      · exact htr x h
    · intro i hi
      have hb := hbound i hi
      rw [hstep i hi] at hb
      simp only [wtrace, List.count_cons, beq_iff_eq]
      by_cases hik : wsel (updateW w f) = i
      · rw [if_pos hik] at hb ⊢
        push_cast
        linarith
      · rw [if_neg hik] at hb ⊢
        push_cast
        linarith

/-- Counting every index below `n` over a trace of such indices gives
its length. -/
theorem count_sum_of_forall_lt (n : ℕ) : ∀ (tr : List ℕ), (∀ x ∈ tr, x < n) →
    (∑ i ∈ Finset.range n, tr.count i) = tr.length := by
  intro tr
  induction tr with
  | nil => intro _; simp
  | cons x xs ih =>
    intro h
    have hx : x < n := h x (List.mem_cons_self x xs)
    have hxs := ih (fun y hy => h y (List.mem_cons_of_mem x hy))
    simp only [List.count_cons, beq_iff_eq]
    rw [Finset.sum_add_distrib, hxs]
    have hone : (∑ i ∈ Finset.range n, if x = i then 1 else 0) = 1 := by
      rw [Finset.sum_ite_eq (Finset.range n) x (fun _ => 1)]
      simp [Finset.mem_range.mpr hx]
    rw [hone]
    simp

/-- Summing a list of naturals by position. -/
theorem sum_range_getD (m : List ℕ) :
    (∑ i ∈ Finset.range m.length, m.getD i 0) = m.sum := by
  induction m with
  | nil => simp
  | cons x xs ih =>
    rw [show (x :: xs).length = xs.length + 1 from rfl, Finset.sum_range_succ']
    simp only [List.getD_cons_succ, List.getD_cons_zero]
    rw [ih]
    simp [List.sum_cons, Nat.add_comm]

/-- Sum of a list scaled elementwise by `d`. -/
theorem map_mul_sum (d : ℚ) (m : List ℕ) :
    (m.map (fun k : ℕ => d * (k : ℚ))).sum = d * (m.sum : ℚ) := by
  induction m with
  | nil => simp
  | cons x xs ih =>
    simp only [List.map_cons, List.sum_cons, ih]
    push_cast
    ring

/-- Positional reading of the scaled list. -/
theorem getD_map_mul (d : ℚ) (m : List ℕ) :
    ∀ i, i < m.length → (m.map (fun k : ℕ => d * (k : ℚ))).getD i 0 = d * (m.getD i 0 : ℚ) := by
  induction m with
  | nil => intro i hi; simp at hi
  | cons x xs ih =>
    intro i hi
    cases i with
    | zero => simp
    | succ j => simpa using ih j (Nat.lt_of_succ_lt_succ hi)

/-- Reading the all-zero weight vector. -/
theorem getD_replicate_zero (n : ℕ) : ∀ i, (List.replicate n (0 : ℚ)).getD i 0 = 0 := by
  induction n with
  | zero => intro i; simp
  | succ n ih =>
    intro i
    cases i with
    | zero => simp [List.replicate]
    | succ j =>
      simp only [List.replicate, List.getD_cons_succ]
      exact ih j

/-- The all-zero weight vector sums to zero. -/
theorem sum_replicate_zero (n : ℕ) : (List.replicate n (0 : ℚ)).sum = 0 := by
  induction n with
  | zero => rfl
  | succ n ih => simp [List.replicate, ih]

/-- One `SelectNode` call on a non-empty pool only rewrites the weight
vector, by one smooth-WRR step. -/
theorem poolSelStep_eq (p : CandidatePool) (hne : p.Nodes ≠ []) :
    poolSelStep p = { p with Weights := wstep p.Factors p.FactorSum p.Weights } := by
  simp [poolSelStep, SelectNode, hne, wstep]

/-- The indices selected by successive `SelectNode` calls are the
weight-vector trace. -/
theorem poolSelTrace_eq_wtrace : ∀ (T : ℕ) (p : CandidatePool), p.Nodes ≠ [] →
    poolSelTrace p T = wtrace p.Factors p.FactorSum p.Weights T := by
  intro T
  induction T with
  | zero => intro p _; rfl
  | succ T ih =>
    intro p hne
    show selIdx p :: poolSelTrace (poolSelStep p) T = _
    rw [poolSelStep_eq p hne,
      ih { p with Weights := wstep p.Factors p.FactorSum p.Weights } hne]
    rfl

/-- Pointwise bounded naturals with equal sums are pointwise equal. -/
theorem counts_eq_of_le_of_sum_eq (n : ℕ) (c m : ℕ → ℕ)
    (hle : ∀ i ∈ Finset.range n, c i ≤ m i)
    (hsum : (∑ i ∈ Finset.range n, c i) = ∑ i ∈ Finset.range n, m i) :
    ∀ i ∈ Finset.range n, c i = m i := by
  by_contra hc
  push_neg at hc
  obtain ⟨j, hj, hne⟩ := hc
  exact absurd hsum
    (ne_of_lt (Finset.sum_lt_sum hle ⟨j, hj, lt_of_le_of_ne (hle j hj) hne⟩))

/-- C8: for a static pool whose factors are `d` times the positive
integer vector `m` (so `d` is a common divisor and
`factor_sum / d = Σ m`), over `Σ m` successive `SelectNode` calls
starting from all weights zero, index `i` is selected exactly `m i`
times — the Nginx smooth-WRR proportionality, exact, with no rounding
slack. -/
theorem C8_smooth_wrr_counts (p : CandidatePool) (d : ℚ) (m : List ℕ)
    (hd : 0 < d) (hm : ∀ k ∈ m, 0 < k) (hmne : m ≠ [])
    (hfac : p.Factors = m.map (fun k : ℕ => d * (k : ℚ)))
    (hw : p.Weights = List.replicate m.length 0)
    (hnlen : p.Nodes.length = m.length)
    (hfs : p.FactorSum = p.Factors.sum) :
    p.FactorSum / d = (m.sum : ℚ) ∧
    ∀ i < m.length, (poolSelTrace p m.sum).count i = m.getD i 0 := by
  set f := m.map (fun k : ℕ => d * (k : ℚ)) with hfdef
  set n := m.length with hndef
  have hfl : f.length = n := by simp [hfdef, hndef]
  have hn : 0 < n := List.length_pos.mpr hmne
  have hpos : ∀ x ∈ f, 0 < x := by
    intro x hx
    obtain ⟨k, hk, rfl⟩ := List.mem_map.mp hx
    exact mul_pos hd (by exact_mod_cast hm k hk)
  have hfsum : f.sum = d * (m.sum : ℚ) := map_mul_sum d m
  have hMn : 0 < m.sum := List.sum_pos m hm hmne
  have hSpos : 0 < f.sum := by
    rw [hfsum]
    exact mul_pos hd (by exact_mod_cast hMn)
  have hpne : p.Nodes ≠ [] := by
    intro h0
    rw [h0] at hnlen
    simp at hnlen
    omega
  have htr_eq : poolSelTrace p m.sum = wtrace f f.sum (List.replicate n 0) m.sum := by
    rw [poolSelTrace_eq_wtrace m.sum p hpne, hfs, hfac, hw]
  have hinv0 : WInv f.sum n (List.replicate n 0) := by
    refine ⟨List.length_replicate n 0, sum_replicate_zero n, ?_⟩
    intro i hi
    rw [getD_replicate_zero]
    linarith
  obtain ⟨hall, hbound⟩ :=
    wtrace_invariant f n hfl hn hpos m.sum (List.replicate n 0) hinv0
  have hcle : ∀ i < n,
      (wtrace f f.sum (List.replicate n 0) m.sum).count i ≤ m.getD i 0 := by
    intro i hi
    set c := (wtrace f f.sum (List.replicate n 0) m.sum).count i with hcdef
    have hb := hbound i hi
    rw [getD_replicate_zero, getD_map_mul d m i hi, ← hcdef] at hb
    rw [hfsum] at hb
    have hdM : (0 : ℚ) < d * (m.sum : ℚ) := mul_pos hd (by exact_mod_cast hMn)
    have h2 : (d * (m.sum : ℚ)) * (c : ℚ)
        < (d * (m.sum : ℚ)) * ((m.getD i 0 : ℚ) + 1) := by nlinarith [hb]
    have hlt : (c : ℚ) < (m.getD i 0 : ℚ) + 1 := lt_of_mul_lt_mul_left h2 (le_of_lt hdM)
    have : c < m.getD i 0 + 1 := by exact_mod_cast hlt
    omega
  have hcsum : (∑ i ∈ Finset.range n,
      (wtrace f f.sum (List.replicate n 0) m.sum).count i) = m.sum := by
    rw [count_sum_of_forall_lt n _ hall, wtrace_length]
  have hmsum : (∑ i ∈ Finset.range n, m.getD i 0) = m.sum := sum_range_getD m
  have heq := counts_eq_of_le_of_sum_eq n _ _
    (fun i hi => hcle i (Finset.mem_range.mp hi)) (hcsum.trans hmsum.symm)
  constructor
  · rw [hfs, hfac, hfsum]
    exact mul_div_cancel_left₀ _ (ne_of_gt hd)
  · intro i hi
    rw [htr_eq]
    exact heq i (Finset.mem_range.mpr hi)

/-- C8 witness: the pool with factors 2, 1 (so `d = 1`, `m = [2, 1]`):
over 3 calls node 0 is selected twice and node 1 once. -/
theorem C8_smooth_wrr_counts_witness :
    (0 : ℚ) < 1 ∧ (∀ k ∈ ([2, 1] : List ℕ), 0 < k) ∧ ([2, 1] : List ℕ) ≠ []
    ∧ exPool.Factors = ([2, 1] : List ℕ).map (fun k : ℕ => (1 : ℚ) * (k : ℚ))
    ∧ exPool.Weights = List.replicate ([2, 1] : List ℕ).length 0
    ∧ exPool.Nodes.length = ([2, 1] : List ℕ).length
    ∧ exPool.FactorSum = exPool.Factors.sum
    ∧ (exPool.FactorSum / 1 = ((([2, 1] : List ℕ).sum : ℕ) : ℚ)
       ∧ ∀ i < ([2, 1] : List ℕ).length,
          (poolSelTrace exPool ([2, 1] : List ℕ).sum).count i
            = ([2, 1] : List ℕ).getD i 0) :=
  ⟨by norm_num, by decide, by decide, by norm_num [exPool], rfl, rfl, by norm_num [exPool],
    C8_smooth_wrr_counts exPool 1 [2, 1] (by norm_num) (by decide) (by decide)
      (by norm_num [exPool]) rfl rfl (by norm_num [exPool])⟩
